import Mathlib

/-!
Verification development for the `dh` CLI's core subsystem: layered TOML
configuration (src/dh/utils/config.py) and the database client
(src/dh/utils/db.py).  Python dictionaries are embedded as association
lists that keep insertion order (first occurrence wins on lookup, updates
replace in place, new keys append), matching CPython dict semantics.
-/

/-- A primitive TOML value as used by the two config files (strings for
paths/credentials, booleans for preferences). -/
inductive TomlPrim where
  | str (s : String)
  | boolean (b : Bool)
deriving DecidableEq, Repr

/-- A TOML table: an insertion-ordered association list, the embedding of a
Python dict of primitives. -/
abbrev TomlTable := List (String × TomlPrim)

/-- A TOML document: top-level sections, each a table.  Both `dh.toml` and
`.dh.local.toml` hold only tables at the top level. -/
abbrev TomlDoc := List (String × TomlTable)

/-- Embedding of `d[k]` lookup in a Python dict: the first (unique, in a real dict)
binding of `k`. -/
def lookupKey (t : TomlTable) (k : String) : Option TomlPrim :=
  match t with
  | [] => none
  | (k2, v) :: rest => if k2 = k then some v else lookupKey rest k

/-- Embedding of `d[k] = v` on a Python dict: replace the binding in place if present,
append otherwise. -/
def setKey (t : TomlTable) (k : String) (v : TomlPrim) : TomlTable :=
  match t with
  | [] => [(k, v)]
  | (k2, v2) :: rest => if k2 = k then (k, v) :: rest else (k2, v2) :: setKey rest k v

/-- Embedding of `base.update(upd)` on Python dicts: fold every binding of `upd` into
`base`, later bindings overriding. -/
def updateTable (base upd : TomlTable) : TomlTable :=
  upd.foldl (fun acc kv => setKey acc kv.1 kv.2) base

/-- Lookup of a top-level section. -/
def lookupSection (d : TomlDoc) (s : String) : Option TomlTable :=
  match d with
  | [] => none
  | (s2, t) :: rest => if s2 = s then some t else lookupSection rest s

/-- Replace a top-level section's table in place. -/
def setSection (d : TomlDoc) (s : String) (t : TomlTable) : TomlDoc :=
  match d with
  | [] => [(s, t)]
  | (s2, t2) :: rest => if s2 = s then (s, t) :: rest else (s2, t2) :: setSection rest s t

/-- Lookup of key `k` inside top-level section `s`. -/
def sectionKey (d : TomlDoc) (s k : String) : Option TomlPrim :=
  (lookupSection d s).bind (fun t => lookupKey t k)

/-- One iteration of the merge loop of `load_config`: if the accumulated
dict already has the local entry's key (always bound to a table here) the
section is updated sub-key by sub-key, otherwise the local entry is
assigned (appended). -/
def mergeStep (acc : TomlDoc) (kv : String × TomlTable) : TomlDoc :=
  match lookupSection acc kv.1 with
  | some bt => setSection acc kv.1 (updateTable bt kv.2)
  | none => acc ++ [kv]

/-- The merge loop of `load_config`: fold every top-level entry of the local
document into the base document. -/
def mergeToml (base localDoc : TomlDoc) : TomlDoc :=
  localDoc.foldl mergeStep base

/-- A real dict never repeats a key; `tomllib.load` yields nested dicts, so
both levels of a loaded document have pairwise-distinct keys. -/
def WellFormedDoc (d : TomlDoc) : Prop :=
  (d.map Prod.fst).Nodup ∧ ∀ kv ∈ d, (kv.2.map Prod.fst).Nodup

instance : DecidablePred WellFormedDoc := fun d =>
  inferInstanceAs
    (Decidable ((d.map Prod.fst).Nodup ∧ ∀ kv ∈ d, (kv.2.map Prod.fst).Nodup))

/-- Embedding of `DatabaseConfig` pydantic model: five optional string fields. -/
structure DatabaseConfig where
  url : Option String := none
  service_role_key : Option String := none
  anon_key : Option String := none
  password : Option String := none
  project_ref : Option String := none
deriving DecidableEq, Repr

/-- Embedding of `ProjectConfig` pydantic model. -/
structure ProjectConfig where
  frontend_path : Option String := none
  backend_path : Option String := none
deriving DecidableEq, Repr

/-- Embedding of `PreferencesConfig` pydantic model with its defaults. -/
structure PreferencesConfig where
  disable_detection_warnings : Bool := false
  auto_install_dependencies : Bool := true
deriving DecidableEq, Repr

/-- The root `Config` pydantic model. -/
structure Config where
  project : ProjectConfig := {}
  db : DatabaseConfig := {}
  preferences : PreferencesConfig := {}
deriving DecidableEq, Repr

/-- Validation of an optional string field: absent keys fall back to the
default `None`, a string validates, a boolean is a validation error. -/
def getStrField (t : TomlTable) (k : String) : Option (Option String) :=
  match lookupKey t k with
  | none => some none
  | some (TomlPrim.str s) => some (some s)
  | some (TomlPrim.boolean _) => none

/-- Validation of a boolean field with a default. -/
def getBoolField (t : TomlTable) (k : String) (dflt : Bool) : Option Bool :=
  match lookupKey t k with
  | none => some dflt
  | some (TomlPrim.boolean b) => some b
  | some (TomlPrim.str _) => none

/-- Validating the `db` section (extra keys are ignored, as pydantic does by
default). -/
def parseDb (t : TomlTable) : Option DatabaseConfig := do
  let url ← getStrField t "url"
  let srk ← getStrField t "service_role_key"
  let ak ← getStrField t "anon_key"
  let pw ← getStrField t "password"
  let pr ← getStrField t "project_ref"
  pure { url := url, service_role_key := srk, anon_key := ak,
         password := pw, project_ref := pr }

/-- Validating the `project` section. -/
def parseProject (t : TomlTable) : Option ProjectConfig := do
  let fp ← getStrField t "frontend_path"
  let bp ← getStrField t "backend_path"
  pure { frontend_path := fp, backend_path := bp }

/-- Validating the `preferences` section. -/
def parsePrefs (t : TomlTable) : Option PreferencesConfig := do
  let dw ← getBoolField t "disable_detection_warnings" false
  let ai ← getBoolField t "auto_install_dependencies" true
  pure { disable_detection_warnings := dw, auto_install_dependencies := ai }

/-- Embedding of `Config(**config_data)`: each section validated, missing sections get
their model defaults. -/
def parseConfig (d : TomlDoc) : Option Config := do
  let p ← parseProject ((lookupSection d "project").getD [])
  let db ← parseDb ((lookupSection d "db").getD [])
  let pr ← parsePrefs ((lookupSection d "preferences").getD [])
  pure { project := p, db := db, preferences := pr }

/-- The workspace state `load_config`/the save functions touch: the two
optional on-disk TOML files. -/
structure FS where
  dh_toml : Option TomlDoc := none
  local_toml : Option TomlDoc := none
deriving DecidableEq, Repr

/-- Embedding of `load_config`: start from an empty dict, read `dh.toml` if present,
then merge `.dh.local.toml` on top if present, and validate. -/
def load_config (fs : FS) : Option Config :=
  let config_data : TomlDoc := match fs.dh_toml with
    | none => []
    | some d => d
  let merged : TomlDoc := match fs.local_toml with
    | none => config_data
    | some l => mergeToml config_data l
  parseConfig merged

/-- One serialized entry per non-`None` field (`model_dump(exclude_none=True)`). -/
def optEntry (k : String) (v : Option String) : TomlTable :=
  match v with
  | none => []
  | some s => [(k, TomlPrim.str s)]

/-- Serialization of the `db` section, non-null fields only, declaration
order. -/
def dumpDb (d : DatabaseConfig) : TomlTable :=
  optEntry "url" d.url ++ optEntry "service_role_key" d.service_role_key ++
  optEntry "anon_key" d.anon_key ++ optEntry "password" d.password ++
  optEntry "project_ref" d.project_ref

/-- Serialization of the `project` section, non-null fields only. -/
def dumpProject (p : ProjectConfig) : TomlTable :=
  optEntry "frontend_path" p.frontend_path ++ optEntry "backend_path" p.backend_path

/-- Serialization of the `preferences` section (full dump, both fields). -/
def dumpPrefs (p : PreferencesConfig) : TomlTable :=
  [("disable_detection_warnings", TomlPrim.boolean p.disable_detection_warnings),
   ("auto_install_dependencies", TomlPrim.boolean p.auto_install_dependencies)]

/-- The document `save_local_config` serializes: only the `db` section. -/
def secretsDoc (c : Config) : TomlDoc := [("db", dumpDb c.db)]

/-- The document `save_project_config` serializes: only the `project` and
`preferences` sections. -/
def projectDoc (c : Config) : TomlDoc :=
  [("project", dumpProject c.project), ("preferences", dumpPrefs c.preferences)]

/-- Embedding of `save_local_config`: overwrite `.dh.local.toml` with only the `db`
section. -/
def save_local_config (fs : FS) (c : Config) : FS :=
  { fs with local_toml := some (secretsDoc c) }

/-- Embedding of `save_project_config`: overwrite `dh.toml` with only the `project` and
`preferences` sections. -/
def save_project_config (fs : FS) (c : Config) : FS :=
  { fs with dh_toml := some (projectDoc c) }

/-! ## DatabaseClient (src/dh/utils/db.py)

Strings are handled as character lists because the embedding works on code
points, exactly as CPython's `str` operations do. -/

/-- ASCII whitespace stripped by Python's `str.strip()`. -/
def isSpaceChar (c : Char) : Bool :=
  c.toNat = 32 || c.toNat = 9 || c.toNat = 10 || c.toNat = 13 ||
  c.toNat = 11 || c.toNat = 12

/-- Embedding of `s.strip()`: drop whitespace from both ends. -/
def pyStrip (s : String) : String :=
  String.mk (((s.toList.dropWhile isSpaceChar).reverse.dropWhile isSpaceChar).reverse)

/-- ASCII lower-casing of one character, as `str.lower()` does. -/
def lowerChar (c : Char) : Char :=
  if 65 ≤ c.toNat ∧ c.toNat ≤ 90 then Char.ofNat (c.toNat + 32) else c

/-- Embedding of `s.lower()` on ASCII text. -/
def pyLower (s : String) : String := String.mk (s.toList.map lowerChar)

/-- Substring containment over character lists (`needle in hay` in Python). -/
def containsSubList (needle : List Char) : List Char → Bool
  | [] => needle.isEmpty
  | c :: cs => needle.isPrefixOf (c :: cs) || containsSubList needle cs

/-- Embedding of `needle in hay` on strings. -/
def containsSub (hay needle : String) : Bool :=
  containsSubList needle.toList hay.toList

/-- Python truthiness of an optional string: `None` and `""` are falsy. -/
def truthy (o : Option String) : Bool :=
  match o with
  | none => false
  | some s => if s = "" then false else true

/-- Attempt of the regex `https://([^.]+)\.supabase\.co` at the head of the
input.  The capture group `[^.]+` is a greedy run of non-dot characters; the
literal that follows begins with a dot, so the greedy run is the only
candidate and no shorter backtracked match can succeed. -/
def tryMatchRef (cs : List Char) : Option (List Char) :=
  if ("https://".toList).isPrefixOf cs then
    if !((cs.drop 8).takeWhile (fun c => c ≠ '.')).isEmpty &&
        (".supabase.co".toList).isPrefixOf
          ((cs.drop 8).drop ((cs.drop 8).takeWhile (fun c => c ≠ '.')).length) then
      some ((cs.drop 8).takeWhile (fun c => c ≠ '.'))
    else none
  else none

/-- Embedding of `re.search`: try the pattern at every start position, leftmost first. -/
def searchRef : List Char → Option (List Char)
  | [] => none
  | c :: cs =>
    match tryMatchRef (c :: cs) with
    | some r => some r
    | none => searchRef cs

/-- The project-ref extraction performed in `DatabaseClient.__init__`:
the capture of `re.search(r"https://([^.]+)\.supabase\.co", url)`, or `None`
when the pattern does not occur. -/
def deriveProjectRef (url : String) : Option String :=
  (searchRef url.toList).map (fun l => String.mk l)

/-- The state of a `DatabaseClient` after `__init__`. -/
structure DatabaseClient where
  url : String
  secret_key : String
  db_password : Option String := none
  project_ref : Option String := none
deriving DecidableEq, Repr

/-- Embedding of `DatabaseClient.__init__`: keep an explicitly supplied (truthy)
`project_ref`, otherwise extract one from the URL (`None` when the pattern
does not match).  Construction itself never fails on a missing ref. -/
def DatabaseClient.init (url secret_key : String)
    (db_password project_ref : Option String) : DatabaseClient :=
  { url := url, secret_key := secret_key, db_password := db_password,
    project_ref := if truthy project_ref then project_ref else deriveProjectRef url }

/-- Embedding of `create_db_client` forwards its arguments to the constructor. -/
def create_db_client (url secret_key : String)
    (db_password project_ref : Option String) : DatabaseClient :=
  DatabaseClient.init url secret_key db_password project_ref

/-- The `db_host` property: raises `ValueError("Project ref not available")`
when `project_ref` is falsy, otherwise returns `db.{ref}.supabase.co`. -/
def DatabaseClient.db_host (c : DatabaseClient) : Except String String :=
  match c.project_ref with
  | none => Except.error "Project ref not available"
  | some r =>
    if r = "" then Except.error "Project ref not available"
    else Except.ok ("db." ++ r ++ ".supabase.co")

/-- Embedding of `insert_allowed_user`: the provider call either succeeds or raises with a
message; duplicate-key conditions are recognized on the lowered message. -/
def insert_allowed_user (res : Except String Unit) : Bool :=
  match res with
  | Except.ok _ => true
  | Except.error e =>
    if containsSub (pyLower e) "duplicate key" || containsSub (pyLower e) "already exists" then
      true
    else false

/-- Model of the provider's allow-list table: inserting a present key raises
a uniqueness-violation error, inserting a fresh key appends it. -/
def tableInsert (tbl : List String) (uid : String) : Except String Unit × List String :=
  if uid ∈ tbl then
    (Except.error "ERROR: duplicate key value violates unique constraint", tbl)
  else (Except.ok (), tbl ++ [uid])

/-- Running counters of `sync_allowed_users`. -/
structure SyncStats where
  added : Nat := 0
  skipped : Nat := 0
  not_found : Nat := 0
deriving DecidableEq, Repr

/-- The guard `if not email or email.startswith("#")` applied to a trimmed
line: empty lines and comment lines are skipped. -/
def isSkippedLine (e : String) : Bool :=
  match e.toList with
  | [] => true
  | c :: _ => c == '#'

/-- One iteration of the `sync_allowed_users` loop.  `lookup` embeds
`get_user_by_email` (which swallows provider errors into `None`), `insert`
embeds `insert_allowed_user`'s verdict for a user id.  The second component
records, in order, the trimmed emails that were actually looked up. -/
def processLine (lookup : String → Option String) (insert : String → Bool)
    (acc : SyncStats × List String) (email : String) : SyncStats × List String :=
  let e := pyStrip email
  if isSkippedLine e then acc
  else
    match lookup e with
    | none => ({ acc.1 with not_found := acc.1.not_found + 1 }, acc.2 ++ [e])
    | some uid =>
      if insert uid then ({ acc.1 with added := acc.1.added + 1 }, acc.2 ++ [e])
      else ({ acc.1 with skipped := acc.1.skipped + 1 }, acc.2 ++ [e])

/-- Embedding of `sync_allowed_users`: fold the loop body over the input lines. -/
def sync_allowed_users (lookup : String → Option String) (insert : String → Bool)
    (emails : List String) : SyncStats × List String :=
  emails.foldl (processLine lookup insert) ({}, [])

/-- Lexicographic code-point comparison, Python's `<=` on strings. -/
def lexLe : List Char → List Char → Bool
  | [], _ => true
  | _ :: _, [] => false
  | c :: cs, d :: ds =>
    if c.toNat < d.toNat then true
    else if d.toNat < c.toNat then false
    else lexLe cs ds

/-- Embedding of `a <= b` on file names. -/
def strLe (a b : String) : Bool := lexLe a.toList b.toList

/-- The ordering relation used to sort migration file names. -/
def strLeP (a b : String) : Prop := strLe a b = true

instance : DecidableRel strLeP := fun a b =>
  inferInstanceAs (Decidable (strLe a b = true))

/-- Python's `sorted` on file names (code-point lexicographic order). -/
def sortStrings (l : List String) : List String := List.insertionSort strLeP l

/-- Embedding of `migrations_dir.glob("*.sql")`: names ending in `.sql`. -/
def isSqlName (n : String) : Bool := (".sql".toList).isSuffixOf n.toList

/-- Events of one `run_migration_file` call against the live connection. -/
inductive DbEvent where
  | connect
  | execute
  | commit
  | close
deriving DecidableEq, Repr

/-- Embedding of `run_migration_file`, with the environment made explicit: whether the
file exists, whether `psycopg2.connect` succeeds, and whether executing the
file's SQL succeeds.  The trace records the connection-level actions that
completed, in order.  A raise inside the `try` block (including the
`db_host` ValueError) lands in the `except` arm, which prints and returns
`False` without touching the connection again. -/
def run_migration_file (c : DatabaseClient)
    (file_exists connect_ok exec_ok : Bool) : Bool × List DbEvent :=
  if !truthy c.db_password then (false, [])
  else if !file_exists then (false, [])
  else
    match c.db_host with
    | Except.error _ => (false, [])
    | Except.ok _ =>
      if !connect_ok then (false, [])
      else if exec_ok then
        (true, [DbEvent.connect, DbEvent.execute, DbEvent.commit, DbEvent.close])
      else (false, [DbEvent.connect, DbEvent.execute])

/-- The loop of `run_migrations`: attempt each file, break on the first
failure.  The second component lists the files actually attempted. -/
def applyLoop (exec : String → Bool) : List String → Bool × List String
  | [] => (true, [])
  | f :: fs =>
    if exec f then
      let r := applyLoop exec fs
      (r.1, f :: r.2)
    else (false, [f])

/-- Embedding of `run_migrations`: fail when the directory is missing, otherwise sort the
`.sql` entries and run the loop (an empty list returns success).  `exec`
abstracts the per-file outcome of `run_migration_file`. -/
def run_migrations (exec : String → Bool) (dir : Option (List String)) :
    Bool × List String :=
  match dir with
  | none => (false, [])
  | some entries => applyLoop exec (sortStrings (entries.filter isSqlName))

/-- Left-biased choice on options, the shape every layered lookup takes. -/
def optOr {α : Type} (a b : Option α) : Option α :=
  match a with
  | some x => some x
  | none => b

/-- The trimmed payload lines of a sync input: what survives the
blank/comment filter, in input order. -/
def payloadLines (emails : List String) : List String :=
  (emails.map pyStrip).filter (fun e => !isSkippedLine e)

/-- How many payload lines are found and granted access. -/
def addedCount (lookup : String → Option String) (insert : String → Bool)
    (emails : List String) : Nat :=
  (payloadLines emails).countP
    (fun e => match lookup e with | some uid => insert uid | none => false)

/-- How many payload lines are found but fail the insert. -/
def skippedCount (lookup : String → Option String) (insert : String → Bool)
    (emails : List String) : Nat :=
  (payloadLines emails).countP
    (fun e => match lookup e with | some uid => !insert uid | none => false)

/-- How many payload lines miss the provider lookup. -/
def notFoundCount (lookup : String → Option String) (emails : List String) : Nat :=
  (payloadLines emails).countP (fun e => (lookup e).isNone)

/-! ## Lemmas: dict lookups through updates, merges and serialization -/

theorem optOr_none_right {α : Type} (a : Option α) : optOr a none = a := by
  cases a <;> rfl

theorem lookupKey_eq_none (t : TomlTable) (k : String) (h : k ∉ t.map Prod.fst) :
    lookupKey t k = none := by
  induction t with
  | nil => rfl
  | cons kv rest ih =>
    obtain ⟨k2, v2⟩ := kv
    simp only [List.map_cons, List.mem_cons] at h
    push_neg at h
    have hne : ¬k2 = k := fun hc => h.1 hc.symm
    simp [lookupKey, hne, ih h.2]

theorem lookupSection_eq_none (d : TomlDoc) (s : String) (h : s ∉ d.map Prod.fst) :
    lookupSection d s = none := by
  induction d with
  | nil => rfl
  | cons kv rest ih =>
    obtain ⟨s2, t2⟩ := kv
    simp only [List.map_cons, List.mem_cons] at h
    push_neg at h
    have hne : ¬s2 = s := fun hc => h.1 hc.symm
    simp [lookupSection, hne, ih h.2]

theorem lookupKey_setKey (t : TomlTable) (k0 : String) (v : TomlPrim) (k : String) :
    lookupKey (setKey t k0 v) k = if k0 = k then some v else lookupKey t k := by
  induction t with
  | nil => simp [setKey, lookupKey]
  | cons kv rest ih =>
    obtain ⟨k2, v2⟩ := kv
    by_cases h : k2 = k0
    · subst h
      by_cases h2 : k2 = k <;> simp [setKey, lookupKey, h2]
    · by_cases h2 : k2 = k
      · subst h2
        have hne : ¬k0 = k2 := fun hc => h hc.symm
        simp [setKey, lookupKey, h, hne]
      · simp [setKey, lookupKey, h, h2, ih]

theorem lookupSection_setSection (d : TomlDoc) (s0 : String) (t : TomlTable) (s : String) :
    lookupSection (setSection d s0 t) s = if s0 = s then some t else lookupSection d s := by
  induction d with
  | nil => simp [setSection, lookupSection]
  | cons kv rest ih =>
    obtain ⟨s2, t2⟩ := kv
    by_cases h : s2 = s0
    · subst h
      by_cases h2 : s2 = s <;> simp [setSection, lookupSection, h2]
    · by_cases h2 : s2 = s
      · subst h2
        have hne : ¬s0 = s2 := fun hc => h hc.symm
        simp [setSection, lookupSection, h, hne]
      · simp [setSection, lookupSection, h, h2, ih]

theorem lookupSection_append (d1 d2 : TomlDoc) (s : String) :
    lookupSection (d1 ++ d2) s = optOr (lookupSection d1 s) (lookupSection d2 s) := by
  induction d1 with
  | nil => simp [lookupSection, optOr]
  | cons kv rest ih =>
    obtain ⟨s2, t2⟩ := kv
    by_cases h : s2 = s <;> simp [lookupSection, h, ih, optOr]

theorem lookupKey_updateTable (upd base : TomlTable) (k : String)
    (h : (upd.map Prod.fst).Nodup) :
    lookupKey (updateTable base upd) k = optOr (lookupKey upd k) (lookupKey base k) := by
  induction upd generalizing base with
  | nil => simp [updateTable, lookupKey, optOr]
  | cons kv rest ih =>
    obtain ⟨k0, v0⟩ := kv
    simp only [List.map_cons, List.nodup_cons] at h
    have hstep : updateTable base ((k0, v0) :: rest) = updateTable (setKey base k0 v0) rest := rfl
    rw [hstep, ih (setKey base k0 v0) h.2, lookupKey_setKey]
    by_cases hk : k0 = k
    · subst hk
      have hnone : lookupKey rest k0 = none := lookupKey_eq_none rest k0 h.1
      simp [lookupKey, hnone, optOr]
    · simp [lookupKey, hk, optOr]

theorem sectionKey_mergeStep (base : TomlDoc) (s0 : String) (t0 : TomlTable)
    (s k : String) (h : (t0.map Prod.fst).Nodup) :
    sectionKey (mergeStep base (s0, t0)) s k =
      if s0 = s then optOr (lookupKey t0 k) (sectionKey base s k)
      else sectionKey base s k := by
  unfold mergeStep
  cases hbase : lookupSection base s0 with
  | some bt =>
    simp only [sectionKey, lookupSection_setSection]
    by_cases hs : s0 = s
    · subst hs
      simp [hbase, lookupKey_updateTable t0 bt k h, Option.bind]
    · simp [hs]
  | none =>
    simp only [sectionKey, lookupSection_append]
    by_cases hs : s0 = s
    · subst hs
      simp [hbase, lookupSection, optOr, optOr_none_right]
      cases lookupKey t0 k <;> rfl
    · simp [hs, lookupSection, optOr_none_right, optOr]
      cases lookupSection base s <;> rfl

theorem sectionKey_mergeToml (localDoc base : TomlDoc) (s k : String)
    (h : WellFormedDoc localDoc) :
    sectionKey (mergeToml base localDoc) s k =
      optOr (sectionKey localDoc s k) (sectionKey base s k) := by
  induction localDoc generalizing base with
  | nil => simp [mergeToml, sectionKey, lookupSection, optOr]
  | cons kv rest ih =>
    obtain ⟨s0, t0⟩ := kv
    obtain ⟨hnd, hall⟩ := h
    simp only [List.map_cons, List.nodup_cons] at hnd
    have hwrest : WellFormedDoc rest :=
      ⟨hnd.2, fun kv2 hm => hall kv2 (List.mem_cons_of_mem _ hm)⟩
    have ht0 : (t0.map Prod.fst).Nodup := hall (s0, t0) (List.mem_cons_self _ _)
    have hstep : mergeToml base ((s0, t0) :: rest) = mergeToml (mergeStep base (s0, t0)) rest := rfl
    rw [hstep, ih (mergeStep base (s0, t0)) hwrest, sectionKey_mergeStep base s0 t0 s k ht0]
    by_cases hs : s0 = s
    · subst hs
      have hnone : lookupSection rest s0 = none := lookupSection_eq_none rest s0 hnd.1
      simp [sectionKey, lookupSection, hnone, optOr]
    · simp [sectionKey, lookupSection, hs, optOr]

/-! ## Lemmas: serialization round-trips -/

theorem parseDb_dumpDb (d : DatabaseConfig) : parseDb (dumpDb d) = some d := by
  obtain ⟨u, srk, ak, pw, pr⟩ := d
  cases u <;> cases srk <;> cases ak <;> cases pw <;> cases pr <;>
    simp [dumpDb, parseDb, optEntry, getStrField, lookupKey]

theorem parseProject_dumpProject (p : ProjectConfig) :
    parseProject (dumpProject p) = some p := by
  obtain ⟨fp, bp⟩ := p
  cases fp <;> cases bp <;>
    simp [dumpProject, parseProject, optEntry, getStrField, lookupKey]

theorem parsePrefs_dumpPrefs (p : PreferencesConfig) :
    parsePrefs (dumpPrefs p) = some p := by
  obtain ⟨dw, ai⟩ := p
  simp [dumpPrefs, parsePrefs, getBoolField, lookupKey]

theorem load_config_fresh_secrets (c : Config) :
    load_config ⟨none, some (secretsDoc c)⟩ =
      some { project := {}, db := c.db, preferences := {} } := by
  simp [load_config, secretsDoc, mergeToml, mergeStep, lookupSection, parseConfig,
        parseDb_dumpDb, parseProject, parsePrefs, getStrField, getBoolField, lookupKey]

theorem load_config_saved_pair (c c2 : Config) :
    load_config ⟨some (projectDoc c2), some (secretsDoc c)⟩ =
      some { project := c2.project, db := c.db, preferences := c2.preferences } := by
  simp [load_config, secretsDoc, projectDoc, mergeToml, mergeStep, lookupSection,
        parseConfig, parseDb_dumpDb, parseProject_dumpProject, parsePrefs_dumpPrefs]

theorem load_config_project_only (c : Config) :
    load_config ⟨some (projectDoc c), none⟩ =
      some { project := c.project, db := {}, preferences := c.preferences } := by
  simp [load_config, projectDoc, lookupSection, parseConfig,
        parseProject_dumpProject, parsePrefs_dumpPrefs, parseDb, getStrField, lookupKey]

/-! ## Lemmas: the file-name order is total and transitive -/

theorem lexLe_total (a b : List Char) : lexLe a b = true ∨ lexLe b a = true := by
  induction a generalizing b with
  | nil => exact Or.inl rfl
  | cons x xs ih =>
    cases b with
    | nil => exact Or.inr rfl
    | cons y ys =>
      rcases Nat.lt_trichotomy x.toNat y.toNat with h | h | h
      · exact Or.inl (by simp [lexLe, h])
      · have h2 : ¬x.toNat < y.toNat := by omega
        have h3 : ¬y.toNat < x.toNat := by omega
        rcases ih ys with hxy | hyx
        · exact Or.inl (by simp [lexLe, h2, h3, hxy])
        · exact Or.inr (by simp [lexLe, h2, h3, hyx])
      · exact Or.inr (by simp [lexLe, h])

theorem lexLe_trans {a b c : List Char}
    (hab : lexLe a b = true) (hbc : lexLe b c = true) : lexLe a c = true := by
  induction a generalizing b c with
  | nil => rfl
  | cons x xs ih =>
    cases b with
    | nil => simp [lexLe] at hab
    | cons y ys =>
      cases c with
      | nil => simp [lexLe] at hbc
      | cons z zs =>
        simp only [lexLe] at hab hbc ⊢
        rcases Nat.lt_trichotomy x.toNat y.toNat with h1 | h1 | h1 <;>
          rcases Nat.lt_trichotomy y.toNat z.toNat with h2 | h2 | h2
        all_goals
          first
          | (have hxz : x.toNat < z.toNat := by omega
             simp [hxz])
          | (simp only [if_neg (by omega : ¬y.toNat < z.toNat),
               if_pos (by omega : z.toNat < y.toNat)] at hbc
             exact absurd hbc (by decide))
          | (simp only [if_neg (by omega : ¬x.toNat < y.toNat),
               if_pos (by omega : y.toNat < x.toNat)] at hab
             exact absurd hab (by decide))
          | (have hn1 : ¬x.toNat < z.toNat := by omega
             have hn2 : ¬z.toNat < x.toNat := by omega
             simp only [if_neg (by omega : ¬x.toNat < y.toNat),
               if_neg (by omega : ¬y.toNat < x.toNat)] at hab
             simp only [if_neg (by omega : ¬y.toNat < z.toNat),
               if_neg (by omega : ¬z.toNat < y.toNat)] at hbc
             simp [hn1, hn2, ih hab hbc])

instance : IsTotal String strLeP := ⟨fun a b => lexLe_total a.toList b.toList⟩

instance : IsTrans String strLeP := ⟨fun _ _ _ hab hbc => lexLe_trans hab hbc⟩

theorem sortStrings_sorted (l : List String) : List.Sorted strLeP (sortStrings l) :=
  List.sorted_insertionSort strLeP l

theorem sortStrings_perm (l : List String) : List.Perm (sortStrings l) l :=
  List.perm_insertionSort strLeP l

/-! ## Lemmas: the migration loop -/

theorem applyLoop_spec (exec : String → Bool) (files : List String) :
    applyLoop exec files =
      (files.all exec, files.takeWhile exec ++ (files.dropWhile exec).take 1) := by
  induction files with
  | nil => rfl
  | cons f fs ih =>
    cases hf : exec f with
    | true =>
      simp [applyLoop, hf, ih, List.all_cons, List.takeWhile_cons, List.dropWhile_cons]
    | false =>
      simp [applyLoop, hf, List.all_cons, List.takeWhile_cons, List.dropWhile_cons]

/-! ## Lemmas: the user-sync loop -/

theorem payloadLines_cons (x : String) (rest : List String) :
    payloadLines (x :: rest) =
      if isSkippedLine (pyStrip x) then payloadLines rest
      else pyStrip x :: payloadLines rest := by
  simp only [payloadLines, List.map_cons, List.filter_cons]
  cases isSkippedLine (pyStrip x) <;> simp

theorem sync_foldl (lookup : String → Option String) (insert : String → Bool)
    (emails : List String) (acc : SyncStats × List String) :
    emails.foldl (processLine lookup insert) acc =
      ({ added := acc.1.added + addedCount lookup insert emails,
         skipped := acc.1.skipped + skippedCount lookup insert emails,
         not_found := acc.1.not_found + notFoundCount lookup emails },
       acc.2 ++ payloadLines emails) := by
  induction emails generalizing acc with
  | nil =>
    obtain ⟨⟨a, s, n⟩, tr⟩ := acc
    simp [payloadLines, addedCount, skippedCount, notFoundCount]
  | cons x rest ih =>
    rw [List.foldl_cons, ih]
    obtain ⟨⟨a, s, n⟩, tr⟩ := acc
    by_cases hskip : isSkippedLine (pyStrip x) = true
    · simp [processLine, hskip, addedCount, skippedCount, notFoundCount, payloadLines_cons]
    · have hskip2 : isSkippedLine (pyStrip x) = false := by
        cases h : isSkippedLine (pyStrip x)
        · rfl
        · exact absurd h hskip
      cases hl : lookup (pyStrip x) with
      | none =>
        simp [processLine, hskip2, hl, addedCount, skippedCount, notFoundCount,
              payloadLines_cons, List.countP_cons]
        omega
      | some uid =>
        cases hins : insert uid with
        | true =>
          simp [processLine, hskip2, hl, hins, addedCount, skippedCount, notFoundCount,
                payloadLines_cons, List.countP_cons]
          omega
        | false =>
          simp [processLine, hskip2, hl, hins, addedCount, skippedCount, notFoundCount,
                payloadLines_cons, List.countP_cons]
          omega

theorem sync_spec (lookup : String → Option String) (insert : String → Bool)
    (emails : List String) :
    sync_allowed_users lookup insert emails =
      ({ added := addedCount lookup insert emails,
         skipped := skippedCount lookup insert emails,
         not_found := notFoundCount lookup emails }, payloadLines emails) := by
  unfold sync_allowed_users
  rw [sync_foldl]
  simp

theorem count_partition (lookup : String → Option String) (insert : String → Bool)
    (l : List String) :
    l.countP (fun e => match lookup e with | some uid => insert uid | none => false) +
      l.countP (fun e => match lookup e with | some uid => !insert uid | none => false) +
      l.countP (fun e => (lookup e).isNone) = l.length := by
  induction l with
  | nil => rfl
  | cons e rest ih =>
    simp only [List.countP_cons, List.length_cons]
    cases hl : lookup e with
    | none => simp [hl]; omega
    | some uid => cases hins : insert uid <;> simp [hl, hins] <;> omega

/-! ## Lemmas: soundness of the project-ref extraction -/

theorem tryMatchRef_sound {cs r : List Char} (h : tryMatchRef cs = some r) :
    ∃ post, cs = "https://".toList ++ r ++ ".supabase.co".toList ++ post ∧
      r ≠ [] ∧ ∀ ch ∈ r, ch ≠ '.' := by
  unfold tryMatchRef at h
  by_cases hp : ("https://".toList).isPrefixOf cs
  · rw [if_pos hp] at h
    rw [List.isPrefixOf_iff_prefix] at hp
    obtain ⟨t, ht⟩ := hp
    have hlen : ("https://".toList).length = 8 := rfl
    have hrest : cs.drop 8 = t := by
      rw [← ht, ← hlen, List.drop_left]
    rw [hrest] at h
    split at h
    · next hcond =>
      simp only [Bool.and_eq_true] at hcond
      obtain ⟨hne, hsuf⟩ := hcond
      injection h with hr
      subst hr
      set tw := t.takeWhile (fun c => c ≠ '.') with htw
      set dw := t.dropWhile (fun c => c ≠ '.') with hdw
      have hdec : tw ++ dw = t := List.takeWhile_append_dropWhile _ _
      have hdrop : t.drop tw.length = dw := by
        rw [← hdec, List.drop_left]
      rw [hdrop, List.isPrefixOf_iff_prefix] at hsuf
      obtain ⟨post, hpost⟩ := hsuf
      refine ⟨post, ?_, ?_, ?_⟩
      · rw [← ht, ← hdec, ← hpost]
        simp [List.append_assoc]
      · intro hc
        rw [hc] at hne
        simp at hne
      · intro ch hch
        have hp2 := List.mem_takeWhile_imp (htw ▸ hch)
        exact of_decide_eq_true hp2
    · exact absurd h (by simp)
  · rw [if_neg hp] at h
    exact absurd h (by simp)

theorem searchRef_sound {cs r : List Char} (h : searchRef cs = some r) :
    ∃ pre post,
      cs = pre ++ "https://".toList ++ r ++ ".supabase.co".toList ++ post ∧
      r ≠ [] ∧ ∀ ch ∈ r, ch ≠ '.' := by
  induction cs with
  | nil => exact absurd h (by simp [searchRef])
  | cons c cs ih =>
    simp only [searchRef] at h
    cases htm : tryMatchRef (c :: cs) with
    | some r2 =>
      rw [htm] at h
      injection h with hr
      subst hr
      obtain ⟨post, heq, hne, hdot⟩ := tryMatchRef_sound htm
      exact ⟨[], post, by simpa using heq, hne, hdot⟩
    | none =>
      rw [htm] at h
      obtain ⟨pre, post, heq, hne, hdot⟩ := ih h
      exact ⟨c :: pre, post, by simp [heq], hne, hdot⟩

theorem deriveProjectRef_sound {url ref : String} (h : deriveProjectRef url = some ref) :
    ref ≠ "" ∧ (∀ ch ∈ ref.toList, ch ≠ '.') ∧
    ∃ pre post,
      url.toList = pre ++ "https://".toList ++ ref.toList ++ ".supabase.co".toList ++ post := by
  unfold deriveProjectRef at h
  cases hs : searchRef url.toList with
  | none => rw [hs] at h; exact absurd h (by simp)
  | some l =>
    rw [hs] at h
    injection h with hr
    obtain ⟨pre, post, heq, hne, hdot⟩ := searchRef_sound hs
    have htl : ref.toList = l := by rw [← hr]; rfl
    refine ⟨?_, ?_, pre, post, ?_⟩
    · intro hc
      apply hne
      rw [← htl, hc]
      rfl
    · rw [htl]; exact hdot
    · rw [htl]; exact heq

theorem deriveProjectRef_ne_empty (url : String) : deriveProjectRef url ≠ some "" :=
  fun h => (deriveProjectRef_sound h).1 rfl

/-! ## Claim theorems -/

/-- C1: `load_config` layers the local-secret file over the version-controlled
file: a missing file behaves as an empty table, every section/key lookup in
the merged document yields the local file's value when the key is present
there and otherwise the base's (so sub-keys present in both take the local
value and sub-keys present in only one file are kept), and merging an empty
`dh.toml` with a `.dh.local.toml` holding only `db.url` yields a `Config`
with that `db.url` and default `project` and `preferences`. -/
theorem load_config_merge_layering :
    (∀ l : Option TomlDoc, load_config ⟨none, l⟩ = load_config ⟨some [], l⟩)
    ∧ (∀ b : Option TomlDoc, load_config ⟨b, none⟩ = load_config ⟨b, some []⟩)
    ∧ (∀ (base localDoc : TomlDoc) (s k : String), WellFormedDoc localDoc →
        sectionKey (mergeToml base localDoc) s k =
          optOr (sectionKey localDoc s k) (sectionKey base s k))
    ∧ load_config ⟨some [], some [("db", [("url", TomlPrim.str "local-url")])]⟩ =
        some { project := {}, db := { url := some "local-url" }, preferences := {} } :=
  ⟨fun _ => rfl, fun _ => rfl,
   fun base localDoc s k h => sectionKey_mergeToml localDoc base s k h, by decide⟩

/-- Witness for `load_config_merge_layering` at a concrete pair of documents
sharing the `db` section. -/
theorem load_config_merge_layering_witness :
    WellFormedDoc [("db", [("url", TomlPrim.str "local-url")])] ∧
    sectionKey
        (mergeToml
          [("db", [("url", TomlPrim.str "base-url"), ("password", TomlPrim.str "pw")])]
          [("db", [("url", TomlPrim.str "local-url")])]) "db" "url" =
      optOr (sectionKey [("db", [("url", TomlPrim.str "local-url")])] "db" "url")
        (sectionKey
          [("db", [("url", TomlPrim.str "base-url"), ("password", TomlPrim.str "pw")])]
          "db" "url") :=
  ⟨by decide, load_config_merge_layering.2.2.1 _ _ "db" "url" (by decide)⟩

/-- C2: `run_migrations` fails on a missing directory, succeeds with zero
files attempted when the directory has no `.sql` entries, attempts the
lexicographically sorted `.sql` files in order and stops right after the
first failure (the attempted files are the successful prefix plus at most
one failing file, and the call succeeds exactly when every file succeeds);
`sortStrings` really sorts: its output is ordered by `strLeP` and is a
permutation of the `.sql` entries. -/
theorem run_migrations_sorted_fail_fast :
    (∀ exec : String → Bool, run_migrations exec none = (false, []))
    ∧ (∀ (exec : String → Bool) (entries : List String),
        entries.filter isSqlName = [] → run_migrations exec (some entries) = (true, []))
    ∧ (∀ (exec : String → Bool) (entries : List String),
        run_migrations exec (some entries) =
          ((sortStrings (entries.filter isSqlName)).all exec,
            (sortStrings (entries.filter isSqlName)).takeWhile exec ++
              ((sortStrings (entries.filter isSqlName)).dropWhile exec).take 1))
    ∧ (∀ entries : List String,
        List.Sorted strLeP (sortStrings (entries.filter isSqlName)) ∧
        List.Perm (sortStrings (entries.filter isSqlName)) (entries.filter isSqlName))
    ∧ run_migrations (fun f => !(f = "f2.sql")) (some ["f3.sql", "f1.sql", "f2.sql"]) =
        (false, ["f1.sql", "f2.sql"]) := by
  refine ⟨fun _ => rfl, ?_, ?_, ?_, by decide⟩
  · intro exec entries h
    have hrw : run_migrations exec (some entries) =
        applyLoop exec (sortStrings (entries.filter isSqlName)) := rfl
    rw [hrw, h]
    rfl
  · intro exec entries
    exact applyLoop_spec exec (sortStrings (entries.filter isSqlName))
  · intro entries
    exact ⟨sortStrings_sorted _, sortStrings_perm _⟩

/-- Witness for `run_migrations_sorted_fail_fast` on a directory with no
`.sql` entries. -/
theorem run_migrations_sorted_fail_fast_witness :
    (["README.md"].filter isSqlName = []) ∧
    run_migrations (fun _ => true) (some ["README.md"]) = (true, []) :=
  ⟨by decide, run_migrations_sorted_fail_fast.2.1 (fun _ => true) ["README.md"] (by decide)⟩

/-- C3 (code refutation): on the path where the migration file's SQL raises,
`run_migration_file` returns failure without ever closing the connection it
opened — `conn.close()` sits after `conn.commit()` inside the `try` block
and the `except` arm returns directly, so the trace of a call with a
password, an existing file, a successful connect and a failing execute
contains a connect event and no close event.  The success path does close. -/
theorem run_migration_file_leaks_connection_on_error :
    run_migration_file (DatabaseClient.init "https://abc.supabase.co" "key" (some "pw") none)
        true true false = (false, [DbEvent.connect, DbEvent.execute]) ∧
    DbEvent.connect ∈ (run_migration_file
        (DatabaseClient.init "https://abc.supabase.co" "key" (some "pw") none)
        true true false).2 ∧
    DbEvent.close ∉ (run_migration_file
        (DatabaseClient.init "https://abc.supabase.co" "key" (some "pw") none)
        true true false).2 ∧
    run_migration_file (DatabaseClient.init "https://abc.supabase.co" "key" (some "pw") none)
        true true true =
      (true, [DbEvent.connect, DbEvent.execute, DbEvent.commit, DbEvent.close]) :=
  ⟨by decide, by decide, by decide, by decide⟩

/-- C4: `sync_allowed_users` trims each line, skips blank and comment lines
without counting them, looks up exactly the remaining emails in input order
(the second component is the lookup trace), and counts every processed email
into `added`, `skipped` or `not_found` according to the lookup and insert
outcomes; on the documented input exactly two lookups happen, and a
`b@x.com` absent from the provider contributes one `not_found` without
raising. -/
theorem sync_allowed_users_line_handling :
    (∀ (lookup : String → Option String) (insert : String → Bool) (emails : List String),
        sync_allowed_users lookup insert emails =
          ({ added := addedCount lookup insert emails,
             skipped := skippedCount lookup insert emails,
             not_found := notFoundCount lookup emails }, payloadLines emails))
    ∧ payloadLines ["a@x.com", "# comment", "", "b@x.com"] = ["a@x.com", "b@x.com"]
    ∧ sync_allowed_users (fun e => if e = "a@x.com" then some "id-a" else none)
        (fun _ => true) ["a@x.com", "# comment", "", "b@x.com"] =
        ({ added := 1, skipped := 0, not_found := 1 }, ["a@x.com", "b@x.com"]) :=
  ⟨sync_spec, by decide, by decide⟩

/-- Verdict of `insert_allowed_user` on a duplicate-key raise from the modelled
allow-list table. -/
theorem insert_dup_mem (tbl : List String) (uid : String) (h : uid ∈ tbl) :
    insert_allowed_user (tableInsert tbl uid).1 = true := by
  rw [show (tableInsert tbl uid).1 =
      Except.error "ERROR: duplicate key value violates unique constraint" from by
    simp [tableInsert, h]]
  decide

/-- C5: `insert_allowed_user` returns success on a successful insert, its
verdict on an error is exactly whether the lowered message mentions a
duplicate key or an already-existing row (every other error is failure),
and re-running it against the allow-list table for a user already present —
in particular right after a first successful run — returns success. -/
theorem insert_allowed_user_duplicate_idempotent :
    insert_allowed_user (Except.ok ()) = true
    ∧ (∀ m : String,
        insert_allowed_user (Except.error m) =
          (containsSub (pyLower m) "duplicate key" ||
            containsSub (pyLower m) "already exists"))
    ∧ (∀ (tbl : List String) (uid : String), uid ∈ tbl →
        insert_allowed_user (tableInsert tbl uid).1 = true)
    ∧ (∀ (tbl : List String) (uid : String),
        insert_allowed_user (tableInsert (tableInsert tbl uid).2 uid).1 = true) := by
  refine ⟨rfl, ?_, insert_dup_mem, ?_⟩
  · intro m
    unfold insert_allowed_user
    cases h : (containsSub (pyLower m) "duplicate key" ||
        containsSub (pyLower m) "already exists") <;> simp [h]
  · intro tbl uid
    have hmem : uid ∈ (tableInsert tbl uid).2 := by
      by_cases h : uid ∈ tbl <;> simp [tableInsert, h]
    exact insert_dup_mem _ uid hmem

/-- Witness for `insert_allowed_user_duplicate_idempotent` on a user already
in the allow-list. -/
theorem insert_allowed_user_duplicate_idempotent_witness :
    ("user-1" ∈ ["user-1"]) ∧
    insert_allowed_user (tableInsert ["user-1"] "user-1").1 = true :=
  ⟨by decide,
   insert_allowed_user_duplicate_idempotent.2.2.1 ["user-1"] "user-1" (by decide)⟩

/-- C6: round-trips through the on-disk files: `save_local_config` followed by
`load_config` reproduces every `db` field (in particular all non-null ones)
when the version-controlled file is absent or itself a `save_project_config`
output, and `save_project_config` followed by `load_config` reproduces the
`project` and `preferences` sections when the local-secret file is absent or
itself a `save_local_config` output. -/
theorem save_load_roundtrip :
    (∀ (c : Config) (fs : FS),
        (fs.dh_toml = none ∨ ∃ c2, fs.dh_toml = some (projectDoc c2)) →
        ∃ c1, load_config (save_local_config fs c) = some c1 ∧ c1.db = c.db)
    ∧ (∀ (c : Config) (fs : FS),
        (fs.local_toml = none ∨ ∃ c2, fs.local_toml = some (secretsDoc c2)) →
        ∃ c1, load_config (save_project_config fs c) = some c1 ∧
          c1.project = c.project ∧ c1.preferences = c.preferences) := by
  constructor
  · intro c fs h
    have hsl : save_local_config fs c = ⟨fs.dh_toml, some (secretsDoc c)⟩ := rfl
    rcases h with h | ⟨c2, h⟩
    · exact ⟨{ project := {}, db := c.db, preferences := {} },
        by rw [hsl, h]; exact load_config_fresh_secrets c, rfl⟩
    · exact ⟨{ project := c2.project, db := c.db, preferences := c2.preferences },
        by rw [hsl, h]; exact load_config_saved_pair c c2, rfl⟩
  · intro c fs h
    have hsp : save_project_config fs c = ⟨some (projectDoc c), fs.local_toml⟩ := rfl
    rcases h with h | ⟨c2, h⟩
    · exact ⟨{ project := c.project, db := {}, preferences := c.preferences },
        by rw [hsp, h]; exact load_config_project_only c, rfl, rfl⟩
    · exact ⟨{ project := c.project, db := c2.db, preferences := c.preferences },
        by rw [hsp, h]; exact load_config_saved_pair c2 c, rfl, rfl⟩

/-- Witness for `save_load_roundtrip` on a fresh workspace. -/
theorem save_load_roundtrip_witness :
    ∃ c1, load_config (save_local_config ({} : FS)
        { db := { url := some "local-url" } }) = some c1 ∧
      c1.db = ({ db := { url := some "local-url" } } : Config).db :=
  save_load_roundtrip.1 { db := { url := some "local-url" } } {} (Or.inl rfl)

/-- C7: `deriveProjectRef` never raises (it is a total function); whenever it
returns a ref, the URL literally contains `https://{ref}.supabase.co` with a
non-empty, dot-free captured segment; and on the two documented inputs it
returns `"abcxyz"` and absent respectively. -/
theorem deriveProjectRef_spec :
    (∀ (url ref : String), deriveProjectRef url = some ref →
        ref ≠ "" ∧ (∀ ch ∈ ref.toList, ch ≠ '.') ∧
        ∃ pre post, url.toList =
          pre ++ "https://".toList ++ ref.toList ++ ".supabase.co".toList ++ post)
    ∧ deriveProjectRef "https://abcxyz.supabase.co" = some "abcxyz"
    ∧ deriveProjectRef "https://example.com" = none :=
  ⟨fun _ _ h => deriveProjectRef_sound h, by decide, by decide⟩

/-- Witness for `deriveProjectRef_spec` at the documented matching URL. -/
theorem deriveProjectRef_spec_witness :
    deriveProjectRef "https://abcxyz.supabase.co" = some "abcxyz" ∧
    (("abcxyz" : String) ≠ "" ∧ (∀ ch ∈ ("abcxyz" : String).toList, ch ≠ '.') ∧
      ∃ pre post, ("https://abcxyz.supabase.co" : String).toList =
        pre ++ "https://".toList ++ ("abcxyz" : String).toList ++
          ".supabase.co".toList ++ post) :=
  ⟨by decide, deriveProjectRef_spec.1 "https://abcxyz.supabase.co" "abcxyz" (by decide)⟩

/-- C8: construction succeeds even when no project ref is supplied or
derivable (the stored field is simply `None`), and the failure is deferred
to `db_host`: it raises `Project ref not available` exactly when the stored
ref is absent, and otherwise returns `db.{ref}.supabase.co`. -/
theorem db_host_deferred_failure :
    (∀ (url sk : String) (pw : Option String), deriveProjectRef url = none →
        (DatabaseClient.init url sk pw none).project_ref = none)
    ∧ (∀ c : DatabaseClient, c.project_ref = none →
        c.db_host = Except.error "Project ref not available")
    ∧ (∀ (url sk : String) (pw pr : Option String) (r : String),
        (DatabaseClient.init url sk pw pr).project_ref = some r →
        (DatabaseClient.init url sk pw pr).db_host =
          Except.ok ("db." ++ r ++ ".supabase.co")) := by
  refine ⟨?_, ?_, ?_⟩
  · intro url sk pw h
    simp [DatabaseClient.init, truthy, h]
  · intro c h
    simp [DatabaseClient.db_host, h]
  · intro url sk pw pr r h
    have hinit : (DatabaseClient.init url sk pw pr).project_ref =
        (if truthy pr then pr else deriveProjectRef url) := rfl
    have hr : r ≠ "" := by
      rw [hinit] at h
      by_cases htr : truthy pr = true
      · rw [if_pos htr] at h
        intro hc
        rw [h, hc] at htr
        simp [truthy] at htr
      · rw [if_neg htr] at h
        intro hc
        rw [hc] at h
        exact deriveProjectRef_ne_empty url h
    simp [DatabaseClient.db_host, h, hr]

/-- Witness for `db_host_deferred_failure` on a URL with no derivable ref. -/
theorem db_host_deferred_failure_witness :
    deriveProjectRef "https://example.com" = none ∧
    (DatabaseClient.init "https://example.com" "key" none none).project_ref = none ∧
    (DatabaseClient.init "https://example.com" "key" none none).db_host =
      Except.error "Project ref not available" :=
  ⟨by decide,
   db_host_deferred_failure.1 "https://example.com" "key" none (by decide),
   db_host_deferred_failure.2.1 _
     (db_host_deferred_failure.1 "https://example.com" "key" none (by decide))⟩

/-- C9: the version-controlled file written by `save_project_config` is a
function of the `project` and `preferences` sections only — two configs
differing only in `db` produce identical file content — and the written
document has no `db` section at all: its sections are exactly `project` and
`preferences`, so no `db.*` field can appear in it. -/
theorem save_project_config_no_secrets :
    (∀ (c1 c2 : Config) (fs1 fs2 : FS),
        c1.project = c2.project → c1.preferences = c2.preferences →
        (save_project_config fs1 c1).dh_toml = (save_project_config fs2 c2).dh_toml)
    ∧ (∀ (c : Config) (fs : FS) (k : String),
        lookupSection ((save_project_config fs c).dh_toml.getD []) "db" = none ∧
        sectionKey ((save_project_config fs c).dh_toml.getD []) "db" k = none)
    ∧ (∀ c : Config, (projectDoc c).map Prod.fst = ["project", "preferences"]) := by
  refine ⟨?_, ?_, fun _ => rfl⟩
  · intro c1 c2 fs1 fs2 hp hpref
    simp [save_project_config, projectDoc, hp, hpref]
  · intro c fs k
    constructor
    · simp [save_project_config, projectDoc, lookupSection]
    · simp [save_project_config, projectDoc, sectionKey, lookupSection]

/-- Witness for `save_project_config_no_secrets`: two configs that differ
only in their secrets produce the same version-controlled file. -/
theorem save_project_config_no_secrets_witness :
    (save_project_config {}
        { db := { url := some "secret-url", password := some "pw" } }).dh_toml =
      (save_project_config {} ({} : Config)).dh_toml :=
  save_project_config_no_secrets.1
    { db := { url := some "secret-url", password := some "pw" } } {} {} {} rfl rfl

/-- C10: the counters returned by `sync_allowed_users` partition the
processed emails: `added + skipped + not_found` equals the number of lines
that are non-empty and are not comments after trimming. -/
theorem sync_allowed_users_count_partition :
    ∀ (lookup : String → Option String) (insert : String → Bool) (emails : List String),
      (sync_allowed_users lookup insert emails).1.added +
        (sync_allowed_users lookup insert emails).1.skipped +
        (sync_allowed_users lookup insert emails).1.not_found =
      (payloadLines emails).length := by
  intro lookup insert emails
  rw [sync_spec]
  simp only [addedCount, skippedCount, notFoundCount]
  exact count_partition lookup insert (payloadLines emails)
